import Mathlib

/-!
Verification of the unit-conversion component of PyDesk (`src/calc.py`).

The component consists of:
* the compiled regular expression `gnu_units_output` (calc.py lines 143-149),
* the configuration value `gnu_units_executable` (line 150),
* `units(v, a, b)` (lines 160-172), which spawns the oracle once and parses
  its decoded stdout against the regex, and
* `uu(v, a, b, silent)` (lines 184-190), which extracts the forward factor.

The regex is embedded as a deterministic functional matcher.  Determinism is
justified case by case: every greedy subpattern of the regex is either a
literal, an optional literal, or a character-class plus (`[\d\.\-\+e]+` or
`[^\n]+`) whose following regex atom is a character outside the class, so the
greedy maximal run is the only run the backtracking engine can accept.  The
three optional prefixes of the first alternative are enumerated in the exact
backtracking order of the engine (greedy option first, rightmost option
backtracks first).

Python `float` values produced by `float(<captured group>)` are modelled by
their exact decimal reading as rationals (`ℚ`); no claim depends on the
binary64 rounding step, only on which groups get parsed and returned.
Python `float()` itself raising `ValueError` is modelled by an explicit
outcome, as is `subprocess.run` raising when the executable cannot launch.
-/

/-- The character class `[\d\.\-\+e]` of the regex `gnu_units_output`. -/
def isClassChar (c : Char) : Bool :=
  c.isDigit || c = '.' || c = '-' || c = '+' || c = 'e'

/-- The class `[^\n]` of the regex `gnu_units_output`. -/
def notNewline (c : Char) : Bool := c != '\n'

/-- Consume an exact literal from the front of the input (regex literal atom).
Returns the rest of the input on success. -/
def eatLit : List Char → List Char → Option (List Char)
  | [], cs => some cs
  | _ :: _, [] => none
  | p :: ps, c :: cs => if c = p then eatLit ps cs else none

/-- Greedy maximal run of characters satisfying `p` (regex `X+`/`X*` where the
atom after the run cannot match a character of the class, so the maximal run
is the only one the backtracking engine can accept). -/
def spanRun (p : Char → Bool) : List Char → List Char × List Char
  | [] => ([], [])
  | c :: cs =>
    if p c then (c :: (spanRun p cs).1, (spanRun p cs).2)
    else ([], c :: cs)

/-- Optional sign, as consumed by Python `float()` at the front of the
mantissa or of the exponent.  Returns (negative?, rest). -/
def parseSign : List Char → Bool × List Char
  | [] => (false, [])
  | c :: rest =>
    if c = '-' then (true, rest)
    else if c = '+' then (false, rest)
    else (false, c :: rest)

/-- Numeric value of a digit character. -/
def digitVal (c : Char) : ℕ := c.toNat - 48

/-- Value of a digit string read in base 10. -/
def digitsVal (ds : List Char) : ℕ :=
  ds.foldl (fun a c => 10 * a + digitVal c) 0

/-- Tail of the Python float grammar after the integer part `ip` and
fractional part `fp` of the mantissa have been read: an optional exponent
part `e [sign] digits`, then end of string.  `none` models `float()` raising
`ValueError`. -/
def pyFloatTail (neg : Bool) (ip fp : List Char) (cs : List Char) : Option ℚ :=
  if ip = [] ∧ fp = [] then none
  else
    let mant : ℚ := (digitsVal ip : ℚ) + (digitsVal fp : ℚ) / (10 : ℚ) ^ fp.length
    match cs with
    | [] => some (if neg then -mant else mant)
    | 'e' :: rest =>
      let s := parseSign rest
      let ed := spanRun Char.isDigit s.2
      if ed.1 = [] ∨ ed.2 ≠ [] then none
      else
        let scale : ℚ := (10 : ℚ) ^ digitsVal ed.1
        let v : ℚ := if s.1 then mant / scale else mant * scale
        some (if neg then -v else v)
    | _ => none

/-- Model of Python `float()` on strings over the alphabet reachable from the
regex captured groups (digits, `.`, `-`, `+`, `e`): grammar
`[+-]? ( digits [. digits?] | . digits ) [ e [+-] digits ]`, full string.
(`inf`/`nan`, underscores, uppercase `E` and surrounding whitespace are
unreachable over this alphabet.)  The result is the exact decimal value as a
rational; `none` models `ValueError`. -/
def pyFloatChars (cs : List Char) : Option ℚ :=
  let s := parseSign cs
  let ip := spanRun Char.isDigit s.2
  match ip.2 with
  | '.' :: rest =>
    let fp := spanRun Char.isDigit rest
    pyFloatTail s.1 ip.1 fp.1 fp.2
  | other => pyFloatTail s.1 ip.1 [] other

/-- The literal `reciprocal conversion` of the regex (group `reci_note`). -/
def litReciNote : List Char :=
  ['r', 'e', 'c', 'i', 'p', 'r', 'o', 'c', 'a', 'l', ' ',
   'c', 'o', 'n', 'v', 'e', 'r', 's', 'i', 'o', 'n']

/-- The literal `conformability error` of the regex (group `conform_note`). -/
def litConfNote : List Char :=
  ['c', 'o', 'n', 'f', 'o', 'r', 'm', 'a', 'b', 'i', 'l', 'i', 't', 'y', ' ',
   'e', 'r', 'r', 'o', 'r']

/-- Which alternative of `gnu_units_output` matched, and its captured groups.
`alt1` is the conversion alternative (`reci_note?`, `normal`, `reciprocal`);
`alt2` is the conformability alternative (`in_unit`, `out_unit`). -/
inductive MatchRes where
  | alt1 (note : Bool) (normal reciprocal : List Char)
  | alt2 (inUnit outUnit : List Char)
deriving DecidableEq

/-- One backtracking combination of the three optional prefixes
`\t?  (reciprocal conversion)?  \n?` of the first alternative: consume the
literal when the flag is set, then match `\t\* NORMAL\n\t/ RECIPROCAL` with
both groups greedy nonempty class runs. -/
def alt1Combo (tab note nl : Bool) (cs : List Char) : Option MatchRes :=
  (if tab then eatLit ['\t'] cs else some cs).bind fun cs1 =>
  (if note then eatLit litReciNote cs1 else some cs1).bind fun cs2 =>
  (if nl then eatLit ['\n'] cs2 else some cs2).bind fun cs3 =>
  (eatLit ['\t', '*', ' '] cs3).bind fun cs4 =>
  let n := spanRun isClassChar cs4
  if n.1 = [] then none
  else
    (eatLit ['\n', '\t', '/', ' '] n.2).bind fun cs5 =>
    let r := spanRun isClassChar cs5
    if r.1 = [] then none
    else some (.alt1 note n.1 r.1)

/-- The eight prefix combinations, in the regex engine backtracking order:
greedy (present) option first, rightmost optional backtracks first. -/
def alt1Order : List (Bool × Bool × Bool) :=
  [(true, true, true), (true, true, false), (true, false, true),
   (true, false, false), (false, true, true), (false, true, false),
   (false, false, true), (false, false, false)]

/-- First alternative of `gnu_units_output`:
`\t?(reciprocal conversion)?\n?\t\* (normal)\n\t/ (reciprocal)`. -/
def alt1Match (cs : List Char) : Option MatchRes :=
  alt1Order.findSome? fun t => alt1Combo t.1 t.2.1 t.2.2 cs

/-- Second alternative of `gnu_units_output`:
`(conformability error)\n\t[\d\.\-\+e]+ (in_unit)\n\t[\d\.\-\+e]+ (out_unit)`
with `in_unit`, `out_unit` greedy nonempty `[^\n]+` runs. -/
def alt2Match (cs : List Char) : Option MatchRes :=
  (eatLit litConfNote cs).bind fun cs1 =>
  (eatLit ['\n', '\t'] cs1).bind fun cs2 =>
  let n1 := spanRun isClassChar cs2
  if n1.1 = [] then none
  else
    (eatLit [' '] n1.2).bind fun cs3 =>
    let iu := spanRun notNewline cs3
    if iu.1 = [] then none
    else
      (eatLit ['\n', '\t'] iu.2).bind fun cs4 =>
      let n2 := spanRun isClassChar cs4
      if n2.1 = [] then none
      else
        (eatLit [' '] n2.2).bind fun cs5 =>
        let ou := spanRun notNewline cs5
        if ou.1 = [] then none
        else some (.alt2 iu.1 ou.1)

/-- Model of `gnu_units_output.match(text)` (calc.py lines 143-149, applied
at line 163): anchored at the start of the text, first alternative tried first. -/
def gnu_units_output_match (cs : List Char) : Option MatchRes :=
  match alt1Match cs with
  | some m => some m
  | none => alt2Match cs

/-- A Python scalar appearing in the tuples `units` builds: a `str` or a
`float` (the float's value modelled by its exact decimal reading). -/
inductive PyAtom where
  | str (s : String)
  | float (x : ℚ)
deriving DecidableEq

/-- A value returned by `units`: one of its tuples, or the raw stdout text. -/
inductive PyRet where
  | tuple (xs : List PyAtom)
  | str (s : String)
deriving DecidableEq

/-- Outcome of a call to `units`: the spawn raised (executable could not be
launched — `subprocess.run` propagates, nothing is caught), `float()` raised
`ValueError` on a captured group, or a value was returned. -/
inductive UnitsOutcome where
  | launchFailure
  | valueErr
  | ret (conv : PyRet)
deriving DecidableEq

/-- The parsing phase of `units` (calc.py lines 163-172) applied to the
decoded stdout text: match the regex; on the conformability alternative
return the `('conformability error', in_unit, out_unit)` triple (no float
parsing happens on this path); on the conversion alternative parse both
numeric groups with `float()` (raising = `valueErr`) and return the triple
with the note or the plain pair; on no match return the raw text. -/
def unitsParse (text : String) : UnitsOutcome :=
  match gnu_units_output_match text.toList with
  | some (.alt2 iu ou) =>
    .ret (.tuple [.str "conformability error", .str iu.asString, .str ou.asString])
  | some (.alt1 note n r) =>
    match pyFloatChars n, pyFloatChars r with
    | some x, some y =>
      if note then .ret (.tuple [.float x, .float y, .str "reciprocal conversion"])
      else .ret (.tuple [.float x, .float y])
    | _, _ => .valueErr
  | none => .ret (.str text)

/-- One subprocess invocation: executable name and argument list. -/
structure ProcCall where
  exe : String
  args : List String
deriving DecidableEq

/-- The configuration value `gnu_units_executable` (calc.py line 150): the
short fixed executable name. -/
def gnu_units_executable : String := "gunits"

/-- The single subprocess call `units` makes (calc.py line 161):
`[gnu_units_executable, f'{v}{a}', b]` — the executable plus exactly the two
positional arguments `v ++ a` and `b`.  `v` is the `str` rendering of the
numeric value. -/
def unitsCall (v a b : String) : ProcCall :=
  ⟨gnu_units_executable, [v ++ a, b]⟩

/-- Model of `units(v, a, b)` (calc.py lines 160-172).  The external oracle is a
parameter mapping a subprocess call to either a launch failure (the
exception from `subprocess.run` propagates uncaught) or the decoded stdout
text.  The second component is the trace of subprocess invocations made. -/
def units (oracle : ProcCall → Except Unit String) (v a b : String) :
    UnitsOutcome × List ProcCall :=
  let call := unitsCall v a b
  match oracle call with
  | .error _ => (.launchFailure, [call])
  | .ok out => (unitsParse out, [call])

/-- Python `==` between a scalar and a string literal: string comparison for
a `str`, and `False` for a `float` (a float never equals a str). -/
def atomEqStr : PyAtom → String → Bool
  | .str t, s => t = s
  | .float _, _ => false

/-- The body of `uu` after `conv = units(...)` (calc.py lines 186-190),
applied to the value `units` returned: print `conv` unless `silent`, then
return `None` when `conv` is not a tuple or `conv[0] == 'conformability
error'`, else return `conv[0]`.  First component: the returned value
(`.error` models the `IndexError` `conv[0]` would raise on an empty tuple);
second component: the list of values printed to stdout. -/
def uu (conv : PyRet) (silent : Bool) : Except Unit (Option PyAtom) × List PyRet :=
  let printed := if silent then [] else [conv]
  match conv with
  | .str _ => (.ok none, printed)
  | .tuple [] => (.error (), printed)
  | .tuple (x :: _) =>
    if atomEqStr x "conformability error" then (.ok none, printed)
    else (.ok (some x), printed)

/-- Outcome of a full call `uu(v, a, b, silent)`: an exception propagated
from `units` or from `conv[0]`, or a returned value. -/
inductive UUOutcome where
  | launchFailure
  | valueErr
  | indexErr
  | ret (x : Option PyAtom)
deriving DecidableEq

/-- Model of `uu(v, a, b, silent)` (calc.py lines 184-190): call `units` and
then apply
the body `uu`; exceptions propagate.  Second component: values printed. -/
def uuRun (oracle : ProcCall → Except Unit String) (v a b : String)
    (silent : Bool) : UUOutcome × List PyRet :=
  match (units oracle v a b).1 with
  | .launchFailure => (.launchFailure, [])
  | .valueErr => (.valueErr, [])
  | .ret conv =>
    (match (uu conv silent).1 with
     | .error _ => .indexErr
     | .ok x => .ret x,
     (uu conv silent).2)

/-- A decimal-number literal over the regex class alphabet: digits with an
optional point, `digits`, `digits.digits?` or `.digits` (nonempty). -/
def isDecimalLit (cs : List Char) : Bool :=
  match spanRun Char.isDigit cs with
  | (ip, []) => !ip.isEmpty
  | (ip, d :: fp) =>
    d = '.' && fp.all Char.isDigit && (!ip.isEmpty || !fp.isEmpty)

/-- Both numeric groups captured by a regex match (if any) are accepted by
`float()`. -/
def floatGroupsOk : Option MatchRes → Bool
  | some (.alt1 _ n r) => (pyFloatChars n).isSome && (pyFloatChars r).isSome
  | _ => true

/-! ### Helper lemmas about the matching primitives -/

theorem eatLit_append (l rest : List Char) : eatLit l (l ++ rest) = some rest := by
  induction l with
  | nil => rfl
  | cons c cs ih => simp [eatLit, ih]

theorem eatLit_ne {p c : Char} (ps cs : List Char) (h : c ≠ p) :
    eatLit (p :: ps) (c :: cs) = none := by
  simp [eatLit, h]

theorem eatLit_nil_right {p : Char} (ps : List Char) :
    eatLit (p :: ps) [] = none := rfl

theorem spanRun_nil (p : Char → Bool) : spanRun p [] = ([], []) := rfl

theorem spanRun_all (p : Char → Bool) (xs : List Char)
    (h : ∀ c ∈ xs, p c = true) : spanRun p xs = (xs, []) := by
  induction xs with
  | nil => rfl
  | cons c cs ih =>
    have hc : p c = true := h c (by simp)
    have ihs := ih (fun d hd => h d (by simp [hd]))
    simp [spanRun, hc, ihs]

theorem spanRun_append (p : Char → Bool) (xs : List Char) (y : Char)
    (ys : List Char) (hxs : ∀ c ∈ xs, p c = true) (hy : p y = false) :
    spanRun p (xs ++ y :: ys) = (xs, y :: ys) := by
  induction xs with
  | nil => simp [spanRun, hy]
  | cons c cs ih =>
    have hc : p c = true := hxs c (by simp)
    have ihs := ih (fun d hd => hxs d (by simp [hd]))
    simp [spanRun, hc, ihs]

theorem spanRun_decomp (p : Char → Bool) (cs : List Char) :
    cs = (spanRun p cs).1 ++ (spanRun p cs).2 ∧
      ∀ c ∈ (spanRun p cs).1, p c = true := by
  induction cs with
  | nil => simp [spanRun]
  | cons c cs ih =>
    by_cases hc : p c = true
    · refine ⟨?_, ?_⟩
      · simpa [spanRun, hc] using ih.1
      · intro d hd
        simp only [spanRun, hc, if_pos] at hd
        rcases List.mem_cons.mp hd with h | h
        · exact h ▸ hc
        · exact ih.2 d h
    · simp [spanRun, hc]

/-- Characters of a decimal literal are in the regex class. -/
theorem isClassChar_of_digit {c : Char} (h : c.isDigit = true) :
    isClassChar c = true := by
  simp [isClassChar, h]

theorem newline_not_class : isClassChar '\n' = false := by decide

theorem space_not_class : isClassChar ' ' = false := by decide

/-- A digit is not a sign character, so `parseSign` leaves it alone. -/
theorem parseSign_of_digit {c : Char} (cs : List Char) (h : c.isDigit = true) :
    parseSign (c :: cs) = (false, c :: cs) := by
  have h1 : c ≠ '-' := by intro he; rw [he] at h; simp [Char.isDigit] at h
  have h2 : c ≠ '+' := by intro he; rw [he] at h; simp [Char.isDigit] at h
  simp [parseSign, h1, h2]

theorem parseSign_dot (cs : List Char) :
    parseSign ('.' :: cs) = (false, '.' :: cs) := by
  simp [parseSign]

/-! ### Shape lemmas: how the matcher behaves on each recognized response shape -/

theorem match_plain (nL rL tail : List Char)
    (hn1 : nL ≠ []) (hn2 : ∀ c ∈ nL, isClassChar c = true)
    (hr1 : rL ≠ []) (hr2 : ∀ c ∈ rL, isClassChar c = true)
    (htail : tail = [] ∨ ∃ u, tail = '\n' :: u) :
    gnu_units_output_match
      ('\t' :: '*' :: ' ' :: (nL ++ '\n' :: '\t' :: '/' :: ' ' :: (rL ++ tail)))
      = some (.alt1 false nL rL) := by
  have hspan1 : spanRun isClassChar (nL ++ '\n' :: '\t' :: '/' :: ' ' :: (rL ++ tail))
      = (nL, '\n' :: '\t' :: '/' :: ' ' :: (rL ++ tail)) :=
    spanRun_append _ _ _ _ hn2 newline_not_class
  have hspan2 : spanRun isClassChar (rL ++ tail) = (rL, tail) := by
    rcases htail with h | ⟨u, h⟩
    · subst h; simpa using spanRun_all _ _ hr2
    · subst h; exact spanRun_append _ _ _ _ hr2 newline_not_class
  simp +decide [gnu_units_output_match, alt1Match, alt1Order, List.findSome?,
    alt1Combo, eatLit, litReciNote, Option.bind, hspan1, hspan2, hn1, hr1]

theorem match_reciprocal (nL rL tail : List Char)
    (hn1 : nL ≠ []) (hn2 : ∀ c ∈ nL, isClassChar c = true)
    (hr1 : rL ≠ []) (hr2 : ∀ c ∈ rL, isClassChar c = true)
    (htail : tail = [] ∨ ∃ u, tail = '\n' :: u) :
    gnu_units_output_match
      ('\t' :: (litReciNote ++ '\n' :: '\t' :: '*' :: ' ' ::
        (nL ++ '\n' :: '\t' :: '/' :: ' ' :: (rL ++ tail))))
      = some (.alt1 true nL rL) := by
  have hspan1 : spanRun isClassChar (nL ++ '\n' :: '\t' :: '/' :: ' ' :: (rL ++ tail))
      = (nL, '\n' :: '\t' :: '/' :: ' ' :: (rL ++ tail)) :=
    spanRun_append _ _ _ _ hn2 newline_not_class
  have hspan2 : spanRun isClassChar (rL ++ tail) = (rL, tail) := by
    rcases htail with h | ⟨u, h⟩
    · subst h; simpa using spanRun_all _ _ hr2
    · subst h; exact spanRun_append _ _ _ _ hr2 newline_not_class
  have heat : eatLit litReciNote
      (litReciNote ++ '\n' :: '\t' :: '*' :: ' ' ::
        (nL ++ '\n' :: '\t' :: '/' :: ' ' :: (rL ++ tail)))
      = some ('\n' :: '\t' :: '*' :: ' ' ::
        (nL ++ '\n' :: '\t' :: '/' :: ' ' :: (rL ++ tail))) := eatLit_append _ _
  simp +decide [gnu_units_output_match, alt1Match, alt1Order, List.findSome?,
    alt1Combo, eatLit, Option.bind, heat, hspan1, hspan2, hn1, hr1]

theorem match_conformability (xL yL iuL ouL tail : List Char)
    (hx1 : xL ≠ []) (hx2 : ∀ c ∈ xL, isClassChar c = true)
    (hy1 : yL ≠ []) (hy2 : ∀ c ∈ yL, isClassChar c = true)
    (hiu1 : iuL ≠ []) (hiu2 : ∀ c ∈ iuL, c ≠ '\n')
    (hou1 : ouL ≠ []) (hou2 : ∀ c ∈ ouL, c ≠ '\n')
    (htail : tail = [] ∨ ∃ u, tail = '\n' :: u) :
    gnu_units_output_match
      (litConfNote ++ '\n' :: '\t' :: (xL ++ ' ' ::
        (iuL ++ '\n' :: '\t' :: (yL ++ ' ' :: (ouL ++ tail)))))
      = some (.alt2 iuL ouL) := by
  have hiu2' : ∀ c ∈ iuL, notNewline c = true := fun c hc => by
    simp [notNewline, hiu2 c hc]
  have hou2' : ∀ c ∈ ouL, notNewline c = true := fun c hc => by
    simp [notNewline, hou2 c hc]
  have hspanx : spanRun isClassChar (xL ++ ' ' ::
      (iuL ++ '\n' :: '\t' :: (yL ++ ' ' :: (ouL ++ tail))))
      = (xL, ' ' :: (iuL ++ '\n' :: '\t' :: (yL ++ ' ' :: (ouL ++ tail)))) :=
    spanRun_append _ _ _ _ hx2 space_not_class
  have hspaniu : spanRun notNewline (iuL ++ '\n' :: '\t' :: (yL ++ ' ' :: (ouL ++ tail)))
      = (iuL, '\n' :: '\t' :: (yL ++ ' ' :: (ouL ++ tail))) :=
    spanRun_append _ _ _ _ hiu2' (by decide)
  have hspany : spanRun isClassChar (yL ++ ' ' :: (ouL ++ tail))
      = (yL, ' ' :: (ouL ++ tail)) :=
    spanRun_append _ _ _ _ hy2 space_not_class
  have hspanou : spanRun notNewline (ouL ++ tail) = (ouL, tail) := by
    rcases htail with h | ⟨u, h⟩
    · subst h; simpa using spanRun_all _ _ hou2'
    · subst h; exact spanRun_append _ _ _ _ hou2' (by decide)
  have heat : ∀ X : List Char, eatLit litConfNote (litConfNote ++ X) = some X :=
    fun X => eatLit_append _ _
  simp +decide [gnu_units_output_match, alt1Match, alt1Order, List.findSome?,
    alt1Combo, alt2Match, eatLit, litReciNote, litConfNote, Option.bind,
    hspanx, hspaniu, hspany, hspanou, hx1, hiu1, hy1, hou1]

theorem isDecimalLit_spec (cs : List Char) (h : isDecimalLit cs = true) :
    cs ≠ [] ∧ (∀ c ∈ cs, isClassChar c = true) ∧ ∃ q, pyFloatChars cs = some q := by
  have hdec := spanRun_decomp Char.isDigit cs
  rcases hsp : spanRun Char.isDigit cs with ⟨ip, rest⟩
  rw [hsp] at hdec
  rw [isDecimalLit, hsp] at h
  rcases hdec with ⟨hcs, hip⟩
  simp only at hcs hip
  cases rest with
  | nil =>
    simp only [List.isEmpty_eq_true, Bool.not_eq_true'] at h
    have hipne : ip ≠ [] := by
      intro he; rw [he] at h; simp at h
    have hcs' : cs = ip := by simpa using hcs
    subst hcs'
    refine ⟨hipne, fun c hc => isClassChar_of_digit (hip c hc), ?_⟩
    have hsign : parseSign cs = (false, cs) := by
      match cs, hipne with
      | c :: cs', _ => exact parseSign_of_digit _ (hip c (by simp))
    rw [pyFloatChars, hsign]
    simp only [hsp]
    rw [pyFloatTail]
    simp [hipne]
  | cons d fp =>
    simp only [Bool.and_eq_true, decide_eq_true_eq] at h
    obtain ⟨⟨hd, hfpall⟩, hne'⟩ := h
    subst hd
    have hfp : ∀ c ∈ fp, c.isDigit = true := fun c hc =>
      List.all_eq_true.mp hfpall c hc
    have hne : ip ≠ [] ∨ fp ≠ [] := by
      simp only [Bool.or_eq_true, List.isEmpty_eq_true, Bool.not_eq_true'] at hne'
      rcases hne' with h2 | h2
      · left; intro he; rw [he] at h2; simp at h2
      · right; intro he; rw [he] at h2; simp at h2
    have hcsne : cs ≠ [] := by
      rw [hcs]; intro he
      rcases List.append_eq_nil.mp he with ⟨_, h2⟩
      exact List.cons_ne_nil _ _ h2
    refine ⟨hcsne, ?_, ?_⟩
    · intro c hc
      rw [hcs] at hc
      rcases List.mem_append.mp hc with hc | hc
      · exact isClassChar_of_digit (hip c hc)
      · rcases List.mem_cons.mp hc with hc | hc
        · subst hc; decide
        · exact isClassChar_of_digit (hfp c hc)
    · have hsign : parseSign cs = (false, cs) := by
        rw [hcs]
        match ip, hip with
        | [], _ => exact parseSign_dot _
        | c :: ip', hip => exact parseSign_of_digit _ (hip c (by simp))
      have hspfp : spanRun Char.isDigit fp = (fp, []) := spanRun_all _ _ hfp
      rw [pyFloatChars, hsign]
      simp only [hsp, hspfp]
      rw [pyFloatTail]
      rcases hne with hne | hne <;> simp [hne]
/-- Every value `units` can return has one of the four documented shapes. -/
theorem unitsParse_ret_shapes (text : String) (conv : PyRet)
    (h : unitsParse text = .ret conv) :
    (∃ x y : ℚ, conv = .tuple [.float x, .float y]) ∨
    (∃ x y : ℚ, conv = .tuple [.float x, .float y, .str "reciprocal conversion"]) ∨
    (∃ iu ou : String, conv = .tuple [.str "conformability error", .str iu, .str ou]) ∨
    conv = .str text := by
  rw [unitsParse] at h
  cases hm : gnu_units_output_match text.toList with
  | none =>
    simp only [hm, UnitsOutcome.ret.injEq] at h
    exact Or.inr (Or.inr (Or.inr h.symm))
  | some m =>
    cases m with
    | alt2 iu ou =>
      simp only [hm, UnitsOutcome.ret.injEq] at h
      exact Or.inr (Or.inr (Or.inl ⟨iu.asString, ou.asString, h.symm⟩))
    | alt1 note n r =>
      cases hx : pyFloatChars n with
      | none =>
        simp only [hm, hx] at h
        exact absurd h (by simp)
      | some x =>
        cases hy : pyFloatChars r with
        | none =>
          simp only [hm, hx, hy] at h
          exact absurd h (by simp)
        | some y =>
          simp only [hm, hx, hy] at h
          cases note with
          | true =>
            simp only [if_true, UnitsOutcome.ret.injEq] at h
            exact Or.inr (Or.inl ⟨x, y, h.symm⟩)
          | false =>
            simp only [Bool.false_eq_true, if_false, UnitsOutcome.ret.injEq] at h
            exact Or.inl ⟨x, y, h.symm⟩

/-- C1: For every oracle response text consisting of a line made of a tab,
`* `, and a decimal number, followed by a line made of a tab, `/ `, and a
decimal number (optionally followed by a newline and further text), `units`
returns a pair whose first component is the first number parsed as the
forward conversion factor and whose second is the reciprocal factor. -/
theorem units_plain_conversion (oracle : ProcCall → Except Unit String)
    (v a b n r tail : String)
    (hn : isDecimalLit n.toList = true) (hr : isDecimalLit r.toList = true)
    (htail : tail = "" ∨ ∃ u, tail = "\n" ++ u)
    (hresp : oracle (unitsCall v a b) = .ok ("\t* " ++ n ++ "\n\t/ " ++ r ++ tail)) :
    ∃ xn xr : ℚ, pyFloatChars n.toList = some xn ∧ pyFloatChars r.toList = some xr ∧
      (units oracle v a b).1 = .ret (.tuple [.float xn, .float xr]) := by
  obtain ⟨hn1, hn2, xn, hxn⟩ := isDecimalLit_spec _ hn
  obtain ⟨hr1, hr2, xr, hxr⟩ := isDecimalLit_spec _ hr
  have htl : tail.toList = [] ∨ ∃ u, tail.toList = '\n' :: u := by
    rcases htail with h | ⟨u, h⟩
    · subst h; left; rfl
    · subst h; right
      exact ⟨u.toList, by simp [String.toList, String.data_append]⟩
  have hm := match_plain n.toList r.toList tail.toList hn1 hn2 hr1 hr2 htl
  have htext : ("\t* " ++ n ++ "\n\t/ " ++ r ++ tail).toList
      = '\t' :: '*' :: ' ' ::
        (n.toList ++ '\n' :: '\t' :: '/' :: ' ' :: (r.toList ++ tail.toList)) := by
    simp [String.toList, String.data_append]
  refine ⟨xn, xr, hxn, hxr, ?_⟩
  simp only [units, hresp]
  rw [unitsParse, htext, hm]
  have hxn' : pyFloatChars n.data = some xn := hxn
  have hxr' : pyFloatChars r.data = some xr := hxr
  simp [hxn', hxr']

theorem units_plain_conversion_witness :
    ∃ xn xr : ℚ,
      pyFloatChars "3.2808399".toList = some xn ∧
      pyFloatChars "0.3048".toList = some xr ∧
      (units (fun _ => .ok ("\t* " ++ "3.2808399" ++ "\n\t/ " ++ "0.3048" ++ "\n"))
        "1" "meter" "feet").1 = .ret (.tuple [.float xn, .float xr]) :=
  units_plain_conversion _ "1" "meter" "feet" "3.2808399" "0.3048" "\n"
    (by decide) (by decide) (Or.inr ⟨"", rfl⟩) rfl

/-- C5: For every oracle response beginning with the reciprocal-conversion
note followed by the tab-`* ` forward-factor line and the tab-`/ `
reciprocal-factor line, `units` returns a triple of the forward factor
parsed as a float, the reciprocal factor parsed as a float, and the
non-empty note text. -/
theorem units_reciprocal_note (oracle : ProcCall → Except Unit String)
    (v a b n r tail : String)
    (hn : isDecimalLit n.toList = true) (hr : isDecimalLit r.toList = true)
    (htail : tail = "" ∨ ∃ u, tail = "\n" ++ u)
    (hresp : oracle (unitsCall v a b)
      = .ok ("\treciprocal conversion\n\t* " ++ n ++ "\n\t/ " ++ r ++ tail)) :
    ∃ xn xr : ℚ, pyFloatChars n.toList = some xn ∧ pyFloatChars r.toList = some xr ∧
      (units oracle v a b).1
        = .ret (.tuple [.float xn, .float xr, .str "reciprocal conversion"]) ∧
      "reciprocal conversion" ≠ "" := by
  obtain ⟨hn1, hn2, xn, hxn⟩ := isDecimalLit_spec _ hn
  obtain ⟨hr1, hr2, xr, hxr⟩ := isDecimalLit_spec _ hr
  have htl : tail.toList = [] ∨ ∃ u, tail.toList = '\n' :: u := by
    rcases htail with h | ⟨u, h⟩
    · subst h; left; rfl
    · subst h; right
      exact ⟨u.toList, by simp [String.toList, String.data_append]⟩
  have hm := match_reciprocal n.toList r.toList tail.toList hn1 hn2 hr1 hr2 htl
  rw [show litReciNote =
    ['r', 'e', 'c', 'i', 'p', 'r', 'o', 'c', 'a', 'l', ' ',
     'c', 'o', 'n', 'v', 'e', 'r', 's', 'i', 'o', 'n'] from rfl] at hm
  have htext : ("\treciprocal conversion\n\t* " ++ n ++ "\n\t/ " ++ r ++ tail).toList
      = '\t' :: (['r', 'e', 'c', 'i', 'p', 'r', 'o', 'c', 'a', 'l', ' ',
          'c', 'o', 'n', 'v', 'e', 'r', 's', 'i', 'o', 'n'] ++ '\n' :: '\t' :: '*' :: ' ' ::
          (n.toList ++ '\n' :: '\t' :: '/' :: ' ' :: (r.toList ++ tail.toList))) := by
    simp [String.toList, String.data_append]
  refine ⟨xn, xr, hxn, hxr, ?_, by decide⟩
  simp only [units, hresp]
  rw [unitsParse, htext, hm]
  have hxn' : pyFloatChars n.data = some xn := hxn
  have hxr' : pyFloatChars r.data = some xr := hxr
  simp [hxn', hxr']

theorem units_reciprocal_note_witness :
    ∃ xn xr : ℚ,
      pyFloatChars "2".toList = some xn ∧ pyFloatChars "0.5".toList = some xr ∧
      (units (fun _ => .ok ("\treciprocal conversion\n\t* " ++ "2" ++ "\n\t/ " ++ "0.5" ++ "\n"))
        "1" "hertz" "s").1
        = .ret (.tuple [.float xn, .float xr, .str "reciprocal conversion"]) ∧
      "reciprocal conversion" ≠ "" :=
  units_reciprocal_note _ "1" "hertz" "s" "2" "0.5" "\n"
    (by decide) (by decide) (Or.inr ⟨"", rfl⟩) rfl

/-- C3: For every oracle response matching the conformability-error shape —
the text `conformability error` followed by two tab-prefixed lines each
containing a number and a unit expansion — `units` returns a triple whose
first element is the string `conformability error` and whose other two
elements are the two unit-expansion strings extracted verbatim, both
non-empty. -/
theorem units_conformability_error (oracle : ProcCall → Except Unit String)
    (v a b x y iu ou tail : String)
    (hx1 : x.toList ≠ []) (hx2 : ∀ c ∈ x.toList, isClassChar c = true)
    (hy1 : y.toList ≠ []) (hy2 : ∀ c ∈ y.toList, isClassChar c = true)
    (hiu1 : iu.toList ≠ []) (hiu2 : ∀ c ∈ iu.toList, c ≠ '\n')
    (hou1 : ou.toList ≠ []) (hou2 : ∀ c ∈ ou.toList, c ≠ '\n')
    (htail : tail = "" ∨ ∃ u, tail = "\n" ++ u)
    (hresp : oracle (unitsCall v a b)
      = .ok ("conformability error\n\t" ++ x ++ " " ++ iu ++ "\n\t" ++ y ++ " " ++ ou ++ tail)) :
    (units oracle v a b).1
      = .ret (.tuple [.str "conformability error", .str iu, .str ou]) ∧
    iu ≠ "" ∧ ou ≠ "" := by
  have htl : tail.toList = [] ∨ ∃ u, tail.toList = '\n' :: u := by
    rcases htail with h | ⟨u, h⟩
    · subst h; left; rfl
    · subst h; right
      exact ⟨u.toList, by simp [String.toList, String.data_append]⟩
  have hm := match_conformability x.toList y.toList iu.toList ou.toList tail.toList
    hx1 hx2 hy1 hy2 hiu1 hiu2 hou1 hou2 htl
  rw [show litConfNote =
    ['c', 'o', 'n', 'f', 'o', 'r', 'm', 'a', 'b', 'i', 'l', 'i', 't', 'y', ' ',
     'e', 'r', 'r', 'o', 'r'] from rfl] at hm
  have htext : ("conformability error\n\t" ++ x ++ " " ++ iu ++ "\n\t" ++ y ++ " " ++ ou ++ tail).toList
      = ['c', 'o', 'n', 'f', 'o', 'r', 'm', 'a', 'b', 'i', 'l', 'i', 't', 'y', ' ',
          'e', 'r', 'r', 'o', 'r'] ++ '\n' :: '\t' :: (x.toList ++ ' ' ::
          (iu.toList ++ '\n' :: '\t' :: (y.toList ++ ' ' :: (ou.toList ++ tail.toList)))) := by
    simp [String.toList, String.data_append]
  refine ⟨?_, ?_, ?_⟩
  · simp only [units, hresp]
    rw [unitsParse, htext, hm]
    rfl
  · intro he; subst he; exact hiu1 rfl
  · intro he; subst he; exact hou1 rfl

theorem units_conformability_error_witness :
    (units (fun _ => .ok ("conformability error\n\t" ++ "1" ++ " " ++ "kg" ++ "\n\t" ++
        "1" ++ " " ++ "m" ++ "\n")) "1" "kg" "m").1
      = .ret (.tuple [.str "conformability error", .str "kg", .str "m"]) ∧
    "kg" ≠ "" ∧ "m" ≠ "" :=
  units_conformability_error _ "1" "kg" "m" "1" "1" "kg" "m" "\n"
    (by decide) (by decide) (by decide) (by decide) (by decide) (by decide)
    (by decide) (by decide) (Or.inr ⟨"", rfl⟩) rfl

/-- C4: For every oracle response text that matches none of the recognized
response shapes (including the empty string and a single unrecognized line),
`units` returns that raw decoded text unchanged, exactly as received. -/
theorem units_unparseable_raw (oracle : ProcCall → Except Unit String)
    (v a b text : String)
    (hm : gnu_units_output_match text.toList = none)
    (hresp : oracle (unitsCall v a b) = .ok text) :
    (units oracle v a b).1 = .ret (.str text) := by
  simp only [units, hresp]
  rw [unitsParse, hm]

theorem units_unparseable_raw_witness :
    (units (fun _ => .ok "") "1" "m" "ft").1 = .ret (.str "") :=
  units_unparseable_raw _ "1" "m" "ft" "" (by decide) rfl

/-- C6: If the oracle executable cannot be launched, the exception from
`subprocess.run` propagates: `units` reports the distinct `launchFailure`
outcome, and no run of the parsing phase can produce that outcome, so the
failure is never folded into the unparseable-raw-text result. -/
theorem units_launch_failure_distinct (oracle : ProcCall → Except Unit String)
    (v a b : String) (h : oracle (unitsCall v a b) = .error ()) :
    (units oracle v a b).1 = .launchFailure ∧
    ∀ text : String, unitsParse text ≠ .launchFailure := by
  constructor
  · simp only [units, h]
  · intro text
    rw [unitsParse]
    cases hm : gnu_units_output_match text.data with
    | none => simp [hm]
    | some m =>
      cases m with
      | alt2 iu ou => simp [hm]
      | alt1 note n r =>
        cases hx : pyFloatChars n with
        | none => simp [hm, hx]
        | some xq =>
          cases hy : pyFloatChars r with
          | none => simp [hm, hx, hy]
          | some yq => cases note <;> simp [hm, hx, hy]

theorem units_launch_failure_distinct_witness :
    (units (fun _ => .error ()) "1" "m" "ft").1 = .launchFailure ∧
    ∀ text : String, unitsParse text ≠ .launchFailure :=
  units_launch_failure_distinct _ "1" "m" "ft" rfl

/-- C7: Every call `units(v, a, b)` invokes the external oracle exactly once,
as a child process with exactly the two positional arguments `v ++ a` and
`b`: the invocation trace is the one-element list of that call. -/
theorem units_single_invocation (oracle : ProcCall → Except Unit String)
    (v a b : String) :
    (units oracle v a b).2 = [⟨gnu_units_executable, [v ++ a, b]⟩] ∧
    (unitsCall v a b).args = [v ++ a, b] ∧ (unitsCall v a b).args.length = 2 := by
  refine ⟨?_, rfl, rfl⟩
  simp only [units]
  cases oracle (unitsCall v a b) <;> rfl

/-- The value `uu` returns does not depend on the `silent` flag. -/
theorem uu_fst (conv : PyRet) (s : Bool) : (uu conv s).1 = (uu conv false).1 := by
  cases conv with
  | str t => rfl
  | tuple xs =>
    cases xs with
    | nil => rfl
    | cons x t =>
      by_cases hx : atomEqStr x "conformability error" = true <;> simp [uu, hx]

/-- C8: For any fixed oracle, the value returned by `uu(v, a, b, silent)` is
the same whether `silent` is true or false; the flag only controls whether
the full `units` result is written to standard output. -/
theorem uu_silent_independent (oracle : ProcCall → Except Unit String)
    (v a b : String) (s1 s2 : Bool) :
    (uuRun oracle v a b s1).1 = (uuRun oracle v a b s2).1 ∧
    (∀ conv : PyRet, ∀ s : Bool, (uu conv s).2 = if s then [] else [conv]) := by
  constructor
  · simp only [uuRun]
    cases (units oracle v a b).1 with
    | launchFailure => rfl
    | valueErr => rfl
    | ret conv =>
      show (match (uu conv s1).1 with
        | Except.error _ => UUOutcome.indexErr
        | Except.ok x => UUOutcome.ret x)
        = (match (uu conv s2).1 with
        | Except.error _ => UUOutcome.indexErr
        | Except.ok x => UUOutcome.ret x)
      rw [uu_fst conv s1, uu_fst conv s2]
  · intro conv s
    cases conv with
    | str t => rfl
    | tuple xs =>
      cases xs with
      | nil => rfl
      | cons x t =>
        by_cases hx : atomEqStr x "conformability error" = true <;> simp [uu, hx]

/-- C2: Whenever `units(v, a, b)` returns a result, `uu` returns the forward
factor (the first tuple component) when that result is a plain conversion or
a reciprocal-note conversion, and returns `None` when it is a conformability
error or unparseable raw text. -/
theorem uu_factor_or_none (oracle : ProcCall → Except Unit String)
    (v a b : String) (silent : Bool) (conv : PyRet)
    (h : (units oracle v a b).1 = .ret conv) :
    (∃ x y : ℚ, conv = .tuple [.float x, .float y] ∧
      (uu conv silent).1 = .ok (some (.float x))) ∨
    (∃ x y : ℚ, ∃ nt : String, conv = .tuple [.float x, .float y, .str nt] ∧
      (uu conv silent).1 = .ok (some (.float x))) ∨
    (∃ iu ou : String, conv = .tuple [.str "conformability error", .str iu, .str ou] ∧
      (uu conv silent).1 = .ok none) ∨
    (∃ s : String, conv = .str s ∧ (uu conv silent).1 = .ok none) := by
  rcases ho : oracle (unitsCall v a b) with e | out
  · rw [units] at h
    simp only [ho] at h
    exact absurd h (by simp)
  · rw [units] at h
    simp only [ho] at h
    rcases unitsParse_ret_shapes out conv h with ⟨x, y, hc⟩ | ⟨x, y, hc⟩ | ⟨iu, ou, hc⟩ | hc
    · exact Or.inl ⟨x, y, hc, by subst hc; simp [uu, atomEqStr]⟩
    · exact Or.inr (Or.inl ⟨x, y, "reciprocal conversion", hc,
        by subst hc; simp [uu, atomEqStr]⟩)
    · exact Or.inr (Or.inr (Or.inl ⟨iu, ou, hc, by subst hc; simp [uu, atomEqStr]⟩))
    · exact Or.inr (Or.inr (Or.inr ⟨out, hc, by subst hc; rfl⟩))

theorem uu_factor_or_none_witness :
    (∃ x y : ℚ, PyRet.str "" = .tuple [.float x, .float y] ∧
      (uu (PyRet.str "") false).1 = .ok (some (.float x))) ∨
    (∃ x y : ℚ, ∃ nt : String, PyRet.str "" = .tuple [.float x, .float y, .str nt] ∧
      (uu (PyRet.str "") false).1 = .ok (some (.float x))) ∨
    (∃ iu ou : String,
      PyRet.str "" = .tuple [.str "conformability error", .str iu, .str ou] ∧
      (uu (PyRet.str "") false).1 = .ok none) ∨
    (∃ s : String, PyRet.str "" = .str s ∧ (uu (PyRet.str "") false).1 = .ok none) :=
  uu_factor_or_none (fun _ => .ok "") "1" "m" "ft" false (.str "") (by decide)

/-- C10: Whenever `units` returns a result, `uu` returns either `None` or a
float, never a string or a tuple; and a reciprocal-note triple (whose first
element is a float) is never misclassified by the equality check against the
literal `conformability error`, so its forward factor is always returned. -/
theorem uu_float_or_none (oracle : ProcCall → Except Unit String)
    (v a b : String) (silent : Bool) (conv : PyRet)
    (h : (units oracle v a b).1 = .ret conv) :
    (∃ res : Option PyAtom, (uu conv silent).1 = .ok res ∧
      (res = none ∨ ∃ x : ℚ, res = some (.float x))) ∧
    (∀ x y : ℚ, ∀ nt : String, conv = .tuple [.float x, .float y, .str nt] →
      (uu conv silent).1 = .ok (some (.float x))) := by
  constructor
  · rcases ho : oracle (unitsCall v a b) with e | out
    · rw [units] at h
      simp only [ho] at h
      exact absurd h (by simp)
    · rw [units] at h
      simp only [ho] at h
      rcases unitsParse_ret_shapes out conv h with ⟨x, y, hc⟩ | ⟨x, y, hc⟩ | ⟨iu, ou, hc⟩ | hc
      · exact ⟨some (.float x), by subst hc; simp [uu, atomEqStr], Or.inr ⟨x, rfl⟩⟩
      · exact ⟨some (.float x), by subst hc; simp [uu, atomEqStr], Or.inr ⟨x, rfl⟩⟩
      · exact ⟨none, by subst hc; simp [uu, atomEqStr], Or.inl rfl⟩
      · exact ⟨none, by subst hc; rfl, Or.inl rfl⟩
  · intro x y nt hc
    subst hc
    simp [uu, atomEqStr]

theorem uu_float_or_none_witness :
    (∃ res : Option PyAtom,
      (uu (PyRet.tuple [.float ((pyFloatChars "2".toList).getD 0),
          .float ((pyFloatChars "0.5".toList).getD 0),
          .str "reciprocal conversion"]) false).1
        = .ok res ∧ (res = none ∨ ∃ x : ℚ, res = some (.float x))) ∧
    (∀ x y : ℚ, ∀ nt : String,
      PyRet.tuple [.float ((pyFloatChars "2".toList).getD 0),
          .float ((pyFloatChars "0.5".toList).getD 0),
          .str "reciprocal conversion"]
        = .tuple [.float x, .float y, .str nt] →
      (uu (PyRet.tuple [.float ((pyFloatChars "2".toList).getD 0),
          .float ((pyFloatChars "0.5".toList).getD 0),
          .str "reciprocal conversion"]) false).1
        = .ok (some (.float x))) :=
  uu_float_or_none (fun _ => .ok "\treciprocal conversion\n\t* 2\n\t/ 0.5\n")
    "1" "hertz" "s" false
    (.tuple [.float ((pyFloatChars "2".toList).getD 0),
      .float ((pyFloatChars "0.5".toList).getD 0), .str "reciprocal conversion"])
    rfl

/-- C9 counterexample: the response text made of the tab-`* ` line with
group `e` and the tab-`/ ` line with group `e` matches the regex (`e` is in
the class `[\d\.\-\+e]`), but `float applied to the single character e` raises `ValueError`, so the
parsing phase of `units` raises instead of returning a result. -/
theorem units_parse_raises_on_bad_group :
    (units (fun _ => .ok "\t* e\n\t/ e") "1" "m" "s").1 = .valueErr := by decide

/-- C9 (amended): for every oracle response text whose regex-captured
numeric groups are all accepted by `float()`, the parsing phase of `units`
is total: it returns a result (one of the recognized shapes or the raw
text) and never raises. -/
theorem units_parse_total_when_groups_parse (oracle : ProcCall → Except Unit String)
    (v a b text : String)
    (hg : floatGroupsOk (gnu_units_output_match text.toList) = true)
    (hresp : oracle (unitsCall v a b) = .ok text) :
    ∃ conv, (units oracle v a b).1 = .ret conv := by
  have hu : (units oracle v a b).1 = unitsParse text := by
    simp only [units, hresp]
  rw [hu, unitsParse]
  cases hm : gnu_units_output_match text.data with
  | none => exact ⟨.str text, by simp [hm]⟩
  | some m =>
    cases m with
    | alt2 iu ou =>
      exact ⟨.tuple [.str "conformability error", .str iu.asString, .str ou.asString],
        by simp [hm]⟩
    | alt1 note n r =>
      have hg' : floatGroupsOk (gnu_units_output_match text.data) = true := hg
      rw [hm] at hg'
      simp only [floatGroupsOk, Bool.and_eq_true, Option.isSome_iff_exists] at hg'
      obtain ⟨⟨x, hx⟩, y, hy⟩ := hg'
      cases note with
      | false => exact ⟨.tuple [.float x, .float y], by simp [hm, hx, hy]⟩
      | true =>
        exact ⟨.tuple [.float x, .float y, .str "reciprocal conversion"],
          by simp [hm, hx, hy]⟩

theorem units_parse_total_when_groups_parse_witness :
    ∃ conv, (units (fun _ => .ok "\t* 2\n\t/ 0.5") "1" "m" "ft").1 = .ret conv :=
  units_parse_total_when_groups_parse _ "1" "m" "ft" "\t* 2\n\t/ 0.5" (by decide) rfl
